import Mathlib

/-!
Verification of the contxtly browser extension core
(sentence-boundary detection, position mapping, selection trimming,
highlight drawing and persistence), shallowly embedded from the
JavaScript sources under src/extension/src and the unnamed parts.
-/

namespace Contxtly

/-- Characters matched by the SENTENCE_ENDINGS regex [.!?] in content.js
and the SENTENCE_END regex in the event-handling content script. -/
def sentenceEndingChar (c : Char) : Bool :=
  c = '.' || c = '!' || c = '?'

/-- Characters matched by the JavaScript whitespace class \s
(restricted to the ASCII whitespace actually exercised by the pages). -/
def isWhitespaceChar (c : Char) : Bool :=
  c = ' ' || c = '\t' || c = '\n' || c = '\r' || c = '\x0b' || c = '\x0c'

/-- Characters matched by the Unicode-aware LETTER_OR_NUM regex
(the \p{L} or \p{N} test); the inputs exercised by the claims are ASCII,
where this coincides with isAlpha or isDigit. -/
def letterOrNum (c : Char) : Bool :=
  c.isAlpha || c.isDigit

/-- Backward walk of findSentenceStart in content.js and of the dir < 0
case of findBoundary in the content script: examining index i (the
argument is i + 1), a sentence-ending character followed by whitespace
yields the boundary i + 2; reaching the front yields 0. -/
def scanBack (text : List Char) : Nat → Nat
  | 0 => 0
  | i + 1 =>
    if sentenceEndingChar (text.getD i ' ') && decide (i + 1 < text.length)
        && isWhitespaceChar (text.getD (i + 1) ' ') then
      i + 2
    else
      scanBack text i

/-- Index of the first sentence-ending character of a list, if any:
the forward loop of findSentenceEnd and of the dir > 0 case of
findBoundary, relative to the scan start. -/
def firstEndingIdx : List Char → Option Nat
  | [] => none
  | c :: cs =>
    if sentenceEndingChar c then some 0 else (firstEndingIdx cs).map (· + 1)

/-- findSentenceStart from content.js: walk backwards from position - 1;
a [.!?] character counts only when followed by a whitespace character;
if none is found the sentence starts at 0. -/
def findSentenceStart (text : List Char) (position : Nat) : Nat :=
  scanBack text position

/-- findSentenceEnd from content.js: the first [.!?] character at or
after position ends the sentence one position past it; otherwise the
sentence ends at the end of the text.  No whitespace condition is
applied on this forward walk. -/
def findSentenceEnd (text : List Char) (position : Nat) : Nat :=
  match firstEndingIdx (text.drop position) with
  | some j => position + j + 1
  | none => text.length

/-- findBoundary from the content script (part_003): a single loop that
walks backward for dir < 0 with the whitespace condition, and forward
for dir > 0 with no condition beyond the [.!?] test. -/
def findBoundary (text : List Char) (pos : Nat) (dir : Int) : Nat :=
  if dir < 0 then scanBack text pos
  else
    match firstEndingIdx (text.drop pos) with
    | some j => pos + j + 1
    | none => text.length

/-- Read-only view of the page tree: a text node carrying its character
data, or an element with a tag name, its class list (className split on
spaces) and its children in document order. -/
inductive DomNode where
  | text (s : String)
  | elem (tag : String) (classes : List String) (children : List DomNode)

mutual

/-- Structural equality of nodes, standing in for JavaScript node
identity in the tree view. -/
def DomNode.beq : DomNode → DomNode → Bool
  | .text s, .text t => s == t
  | .elem t1 c1 n1, .elem t2 c2 n2 => t1 == t2 && c1 == c2 && DomNode.beqList n1 n2
  | .text _, .elem _ _ _ => false
  | .elem _ _ _, .text _ => false

/-- DomNode.beq lifted pointwise to sibling lists. -/
def DomNode.beqList : List DomNode → List DomNode → Bool
  | [], [] => true
  | a :: as, b :: bs => DomNode.beq a b && DomNode.beqList as bs
  | [], _ :: _ => false
  | _ :: _, [] => false

end

instance : BEq DomNode := ⟨DomNode.beq⟩

mutual

/-- Document-order list of the character data of every text node under a
node: the sequence visited by document.createTreeWalker(block,
NodeFilter.SHOW_TEXT). -/
def textLeaves : DomNode → List String
  | .text s => [s]
  | .elem _ _ children => textLeavesList children

/-- textLeaves over a list of siblings in document order. -/
def textLeavesList : List DomNode → List String
  | [] => []
  | n :: ns => textLeaves n ++ textLeavesList ns

end

mutual

/-- Node.contains: el is root itself or a descendant of root. -/
def containsNode : DomNode → DomNode → Bool
  | .text s, el => DomNode.text s == el
  | .elem t c ns, el => DomNode.elem t c ns == el || containsAny ns el

/-- containsNode over a list of siblings. -/
def containsAny : List DomNode → DomNode → Bool
  | [], _ => false
  | n :: ns, el => containsNode n el || containsAny ns el

end

/-- Walk of getOffset in the content script (and the identical
findSelectionOffset in content.js), expressed over the document-order
list of text leaves: the target node is identified by its position in
that list; the walk sums the lengths of the leaves strictly before it
and adds the local offset.  Running off the list models the -1 return
value. -/
def getOffsetAux : List String → Nat → Nat → Option Nat
  | [], _, _ => none
  | l :: ls, container + 1, offs =>
    (getOffsetAux ls container offs).map (fun r => l.length + r)
  | _ :: _, 0, offs => some offs

/-- getOffset from the content script: flatten the block to its text
leaves and run the cumulative walk.  none models the -1 NOT_FOUND
return value. -/
def getOffset (block : DomNode) (container offs : Nat) : Option Nat :=
  getOffsetAux (textLeaves block) container offs

/-- Cumulative walk of highlightRelatedWord in the lemma-aware content
code: visit the text leaves in document order keeping a running
character count; the first leaf whose span contains the target position
receives the local offset targetPos - charCount.  Expressed with the
running count subtracted from the target as the walk descends. -/
def locateAux : List String → Nat → Option (Nat × Nat)
  | [], _ => none
  | l :: ls, target =>
    if target < l.length then some (0, target)
    else (locateAux ls (target - l.length)).map (fun p => (p.1 + 1, p.2))

/-- locate: the global-offset-to-(node, local offset) direction of the
Position Mapper, as walked by highlightRelatedWord over a block free of
markers. -/
def locate (block : DomNode) (target : Nat) : Option (Nat × Nat) :=
  locateAux (textLeaves block) target

/-- Total length of the flattened text of a block: the sum of the
lengths of its text leaves in document order. -/
def totalFlattenedLength (block : DomNode) : Nat :=
  ((textLeaves block).map String.length).sum

/-- On the leaf list, locating a target below the summed length
succeeds and the cumulative-sum walk maps the resulting pair back to
the target. -/
theorem locateAux_getOffsetAux_inverse (ls : List String) (target : Nat)
    (h : target < ((ls.map String.length).sum)) :
    ∃ i offs, locateAux ls target = some (i, offs) ∧
      getOffsetAux ls i offs = some target := by
  induction ls generalizing target with
  | nil => simp at h
  | cons l ls ih =>
    by_cases hlt : target < l.length
    · exact ⟨0, target, by simp [locateAux, hlt], by simp [getOffsetAux]⟩
    · have hge : l.length ≤ target := Nat.le_of_not_lt hlt
      have hrest : target - l.length < (ls.map String.length).sum := by
        simp [List.map_cons, List.sum_cons] at h
        omega
      obtain ⟨i, offs, hloc, hoff⟩ := ih (target - l.length) hrest
      refine ⟨i + 1, offs, ?_, ?_⟩
      · simp [locateAux, hlt, hloc]
      · simp [getOffsetAux, hoff]
        omega

/-- JavaScript String.prototype.trim on character lists. -/
def trimChars (l : List Char) : List Char :=
  ((l.dropWhile isWhitespaceChar).reverse.dropWhile isWhitespaceChar).reverse

/-- Flattened textContent of a block as a character list. -/
def textContentChars (block : DomNode) : List Char :=
  ((textLeaves block).map String.toList).flatten

/-- extractSentence from content.js: resolve the block (given here
directly), flatten it, locate the selection start via the cumulative
walk, and cut the text between the backward and forward sentence
boundaries; the trimmed window is withheld when it equals the trimmed
selection. -/
def extractSentence (block : DomNode) (container offs : Nat)
    (rawSelection : List Char) : Option (List Char) :=
  let fullText := textContentChars block
  let selectedText := trimChars rawSelection
  match getOffset block container offs with
  | none => none
  | some selectionStart =>
    let sentenceStart := findSentenceStart fullText selectionStart
    let sentenceEnd := findSentenceEnd fullText (selectionStart + selectedText.length)
    let sentence := trimChars ((fullText.drop sentenceStart).take (sentenceEnd - sentenceStart))
    if sentence = selectedText then none else some sentence

/-- Index of the first letter-or-number character of the selection
text: the forward loop of trimRange (start = i; break). -/
def firstAlnumIdx : List Char → Option Nat
  | [] => none
  | c :: cs =>
    if letterOrNum c then some 0 else (firstAlnumIdx cs).map (· + 1)

/-- Index of the last letter-or-number character: the backward loop of
trimRange (end = i + 1; break), expressed as the forward loop over the
reversed text. -/
def lastAlnumIdx (l : List Char) : Option Nat :=
  (firstAlnumIdx l.reverse).map (fun j => l.length - 1 - j)

/-- trimRange from the content script: with no range (rangeCount = 0)
the result is null; otherwise start is the index of the first
letter-or-number character (0 when none is found) and stop is one past
the index of the last one (text.length when none is found), and the
range is shrunk to that window.  The result is the (start, stop) window
into the selection text. -/
def trimRange (hasRange : Bool) (text : List Char) : Option (Nat × Nat) :=
  if !hasRange then none
  else
    let start := (firstAlnumIdx text).getD 0
    let stop :=
      match lastAlnumIdx text with
      | some j => j + 1
      | none => text.length
    some (start, stop)

/-- The text covered by the range returned by trimRange for a
selection lying in a single text node. -/
def trimmedText (text : List Char) : List Char :=
  match trimRange true text with
  | some (s, e) => (text.drop s).take (e - s)
  | none => []

/-- A translation payload: a plain string, a structured object carrying
an optional lemma (base form) and translation field, or a missing
value (undefined / null). -/
inductive Translation where
  | undef
  | str (s : String)
  | obj (lemma? : Option String) (translationField : Option String)
deriving DecidableEq

/-- JavaScript truthiness of a translation payload: objects are always
truthy, strings are truthy unless empty, a missing value is falsy. -/
def truthy : Translation → Bool
  | .undef => false
  | .str s => s ≠ ""
  | .obj _ _ => true

/-- The optional-chain read translation?.lemma: present only on
structured payloads that carry the field. -/
def translationLemma : Translation → Option String
  | .obj l _ => l
  | _ => none

/-- The JavaScript expression a || b for an optional string a: the
fallback b is taken when a is absent or the empty string (both falsy). -/
def orElseStr (a : Option String) (b : String) : String :=
  match a with
  | none => b
  | some s => if s = "" then b else s

/-- A stored highlight record for one page: the literal text, the
optional base form stored under the lemma key, the translation payload,
the context string and the creation timestamp. -/
structure Record where
  text : String
  lemma? : Option String
  translation : Translation
  context : String
  timestamp : Nat
deriving DecidableEq

/-- saveHighlight (lemma-aware version): compute the dedup key as
translation?.lemma || originalText and append a record to the page list. -/
def saveHighlight (store : List Record) (originalText : String)
    (translation : Translation) (context : String) (timestamp : Nat) : List Record :=
  store ++ [{ text := originalText
              lemma? := some (orElseStr (translationLemma translation) originalText)
              translation := translation
              context := context
              timestamp := timestamp }]

/-- getCachedTranslation: the first record matching both the literal
text and the exact context, with its translation coalesced through
|| null, so a falsy stored payload reads back as null. -/
def getCachedTranslation (store : List Record) (text context : String) :
    Option Translation :=
  match store.find? (fun h => h.text = text && h.context = context) with
  | none => none
  | some h => if truthy h.translation then some h.translation else none

/-- The dedup and deletion key of a record: h.lemma || h.text. -/
def recordKey (h : Record) : String :=
  orElseStr h.lemma? h.text

/-- removeFromStorage (lemma-aware version): keep exactly the records
whose key differs from the requested one. -/
def removeFromStorage (store : List Record) (key : String) : List Record :=
  store.filter (fun h => recordKey h ≠ key)

/-- The first-seen filter of loadWords in the words view: walk the
(already sorted) record list keeping a set of seen keys and drop every
record whose key was already seen. -/
def dedupByKeyGo (seen : List String) : List Record → List Record
  | [] => []
  | h :: t =>
    if recordKey h ∈ seen then dedupByKeyGo seen t
    else h :: dedupByKeyGo (recordKey h :: seen) t

/-- Canonical-form-keyed listing: dedupByKeyGo started with no seen
keys, as loadWords does after sorting by timestamp. -/
def dedupByKey (store : List Record) : List Record :=
  dedupByKeyGo [] store

/-- A drawn marker over the flattened text of a block: the covered
character window and the translation payload held in its dataset. -/
structure Mark where
  s : Nat
  e : Nat
  translation : Translation
deriving DecidableEq

/-- A block together with its drawn markers, over the flattened text.
Wrapping and unwrapping markers never changes the flattened text, so
character offsets are stable under both. -/
structure Block where
  blockText : String
  marks : List Mark
deriving DecidableEq

/-- textContent of a marker: the substring of the flattened block text
that it covers. -/
def coveredText (t : String) (m : Mark) : String :=
  (t.drop m.s).take (m.e - m.s)

/-- The overlap test of highlightSelection via compareBoundaryPoints:
new-span-start at or before marker-end (END_TO_START at most 0) and
new-span-end at or after marker-start (START_TO_END at least 0). -/
def overlapsSpan (s e : Nat) (m : Mark) : Bool :=
  decide (s ≤ m.e) && decide (m.s ≤ e)

/-- A marker fully containing a span: the flat form of the span
container having the marker as an ancestor (parent.closest on the
marker class). -/
def containsSpan (m : Mark) (s e : Nat) : Bool :=
  decide (m.s ≤ s) && decide (e ≤ m.e)

/-- The idempotence guard of highlightSelection: the span container
already sits inside a marker (the first containing one, markers being
non-nested after overlap resolution) whose textContent equals the new
text. -/
def noopCheck (b : Block) (s e : Nat) (text : String) : Bool :=
  match b.marks.find? (fun m => containsSpan m s e) with
  | some m => coveredText b.blockText m = text
  | none => false

/-- highlightSelection on the flat block view: a no-op under the
idempotence guard; otherwise every existing marker overlapping the span
is unwrapped (markers touching the span boundaries included, the
comparisons being non-strict) and a new marker carrying the translation
is drawn over the span.  The element-level gate (existing ||
parent.querySelector) is omitted: when it fails no marker exists under
the block, and filtering an empty marker list is the identity. -/
def highlightSelection (b : Block) (s e : Nat) (text : String)
    (tr : Translation) : Block :=
  if noopCheck b s e text then b
  else { b with marks := b.marks.filter (fun m => !overlapsSpan s e m) ++ [⟨s, e, tr⟩] }

/-- Number of markers of a block whose covered text and stored
translation both match. -/
def countMarksWith (b : Block) (text : String) (tr : Translation) : Nat :=
  b.marks.countP (fun m => decide (coveredText b.blockText m = text) && decide (m.translation = tr))

/-- classList read of isOwnElement: text nodes have no classList (the
optional chain yields undefined, hence false); elements test membership
of the class in their class list. -/
def classListContains (el : DomNode) (c : String) : Bool :=
  match el with
  | .text _ => false
  | .elem _ classes _ => classes.contains c

/-- isOwnElement from ui.js: the node is inside the currently shown
button, inside the currently shown tooltip, or itself carries the
highlight class. -/
def isOwnElement (button tooltip : Option DomNode) (el : DomNode) : Bool :=
  (match button with | some b => containsNode b el | none => false)
  || (match tooltip with | some t => containsNode t el | none => false)
  || classListContains el "contxtly-highlight"

/-- Every nonzero result of the backward scan points two positions past
an index holding a sentence-ending character that is strictly followed
by a whitespace character. -/
theorem scanBack_characterization (text : List Char) (p : Nat) :
    scanBack text p = 0 ∨
      ∃ i, scanBack text p = i + 2 ∧ sentenceEndingChar (text.getD i ' ') = true ∧
        i + 1 < text.length ∧ isWhitespaceChar (text.getD (i + 1) ' ') = true := by
  induction p with
  | zero => left; rfl
  | succ n ih =>
    simp only [scanBack]
    by_cases hc : (sentenceEndingChar (text.getD n ' ') && decide (n + 1 < text.length)
        && isWhitespaceChar (text.getD (n + 1) ' ')) = true
    · rw [if_pos hc]
      right
      have hc' := hc
      simp only [Bool.and_eq_true, decide_eq_true_eq] at hc'
      obtain ⟨⟨ha, hb⟩, hw⟩ := hc'
      exact ⟨n, rfl, ha, hb, hw⟩
    · rw [if_neg hc]
      exact ih

/-- The first sentence-ending index of a list, when it exists, is in
range and holds a sentence-ending character. -/
theorem firstEndingIdx_spec (l : List Char) :
    firstEndingIdx l = none ∨
      ∃ j, firstEndingIdx l = some j ∧ j < l.length ∧
        sentenceEndingChar (l.getD j ' ') = true := by
  induction l with
  | nil => left; rfl
  | cons c cs ih =>
    by_cases hc : sentenceEndingChar c = true
    · right
      exact ⟨0, by simp [firstEndingIdx, hc], by simp, by simpa using hc⟩
    · rcases ih with hnone | ⟨j, hj, hlt, hchar⟩
      · left; simp [firstEndingIdx, hc, hnone]
      · right
        exact ⟨j + 1, by simp [firstEndingIdx, hc, hj], by simpa using hlt, by simpa using hchar⟩

/-- getD through drop: reading the dropped list at j reads the original
at p + j. -/
theorem getD_drop_chars (l : List Char) (p j : Nat) :
    (l.drop p).getD j ' ' = l.getD (p + j) ' ' := by
  simp [List.getD_eq_getElem?_getD, List.getElem?_drop]

/-- Claim C1: for the block text "Dr. Lee arrived. The ephemeral bloom fell."
and the selection "ephemeral" (starting at global offset 21 of the
single text node), extractSentence returns exactly "The ephemeral bloom
fell." - the window excludes the preceding "Dr. Lee arrived." sentence
and does not stop at the period of the abbreviation "Dr.". -/
theorem extractSentence_abbreviation_window :
    extractSentence (.elem "P" [] [.text "Dr. Lee arrived. The ephemeral bloom fell."]) 0 21
      "ephemeral".toList = some "The ephemeral bloom fell.".toList := by
  decide

/-- Claim C2 counterexample: the claim asserts that a period is treated as a
sentence end only when followed by whitespace or end-of-text, and in
particular never inside "3.14" nor inside "Dr. Smith", in both scan
directions.  The code refutes both parts: the forward scan stops at the
period of "3.14" (returning boundary 2, not the text length 4, and the
character at the stop index is that period), findSentenceEnd from
content.js does the same, and the backward scan accepts the
abbreviation period of "Dr. Smith" because it is followed by a space,
returning boundary 4 rather than 0. -/
theorem findBoundary_whitespace_claim_cex :
    findBoundary "3.14".toList 0 1 = 2 ∧
    "3.14".toList.getD 1 ' ' = '.' ∧
    findSentenceEnd "3.14".toList 0 = 2 ∧
    findBoundary "Dr. Smith".toList 9 (-1) = 4 := by
  decide

/-- Claim C2 amended: in the backward (sentence-start) scan a period counts
as a boundary only when strictly followed by a whitespace character
(end-of-text does not qualify): every nonzero backward boundary points
two past a sentence-ending character followed by whitespace; hence no
period of "3.14", "e.g." or "wait..." is a backward boundary, while the
abbreviation period of "Dr. Smith" and the mid-text period of "This is
a sentence. Next." are.  The forward (sentence-end) scan treats every
period, exclamation or question mark as a sentence end unconditionally,
including the period inside "3.14". -/
theorem findBoundary_boundary_characterization :
    (∀ (text : List Char) (p : Nat), findBoundary text p (-1) = 0 ∨
      ∃ i, findBoundary text p (-1) = i + 2 ∧ sentenceEndingChar (text.getD i ' ') = true ∧
        i + 1 < text.length ∧ isWhitespaceChar (text.getD (i + 1) ' ') = true) ∧
    (∀ (text : List Char) (p : Nat), findBoundary text p 1 = text.length ∨
      ∃ i, findBoundary text p 1 = i + 1 ∧ p ≤ i ∧ i < text.length ∧
        sentenceEndingChar (text.getD i ' ') = true) ∧
    findBoundary "3.14".toList 4 (-1) = 0 ∧
    findBoundary "e.g.".toList 4 (-1) = 0 ∧
    findBoundary "wait...".toList 7 (-1) = 0 ∧
    findBoundary "Dr. Smith".toList 9 (-1) = 4 ∧
    findBoundary "This is a sentence. Next.".toList 25 (-1) = 20 ∧
    findBoundary "3.14".toList 0 1 = 2 ∧
    findBoundary "This is a sentence. Next.".toList 0 1 = 19 := by
  refine ⟨?_, ?_, by decide, by decide, by decide, by decide, by decide, by decide, by decide⟩
  · intro text p
    have h := scanBack_characterization text p
    simpa [findBoundary] using h
  · intro text p
    rcases firstEndingIdx_spec (text.drop p) with hnone | ⟨j, hj, hlt, hchar⟩
    · left
      simp [findBoundary, hnone]
    · right
      refine ⟨p + j, ?_, Nat.le_add_right p j, ?_, ?_⟩
      · simp [findBoundary, hj]
      · have := List.length_drop p text
        omega
      · rw [← getD_drop_chars]
        exact hchar

/-- Claim C3: the Position Mapper directions are mutual inverses: for every
block tree and every global offset strictly below the total flattened
length, the cumulative-length walk locates a (text node, local offset)
pair, and summing the lengths of the text leaves strictly before that
node plus the local offset yields the original offset. -/
theorem locate_getOffset_inverse (block : DomNode) (g : Nat)
    (h : g < totalFlattenedLength block) :
    ∃ i offs, locate block g = some (i, offs) ∧ getOffset block i offs = some g :=
  locateAux_getOffsetAux_inverse (textLeaves block) g h

/-- Claim C3 witness: on a block with two text leaves "ab" and "cd" (the
second nested in an inline element) and global offset 3, locate and
getOffset invert each other. -/
theorem locate_getOffset_inverse_witness :
    ∃ i offs,
      locate (.elem "P" [] [.text "ab", .elem "B" [] [.text "cd"]]) 3 = some (i, offs) ∧
      getOffset (.elem "P" [] [.text "ab", .elem "B" [] [.text "cd"]]) i offs = some 3 :=
  locate_getOffset_inverse (.elem "P" [] [.text "ab", .elem "B" [] [.text "cd"]]) 3 (by decide)

/-- The first letter-or-number index, when present, is in range, holds
a letter-or-number character, and is minimal among such indices. -/
theorem firstAlnumIdx_spec (l : List Char) (i : Nat) (h : firstAlnumIdx l = some i) :
    i < l.length ∧ letterOrNum (l.getD i ' ') = true ∧
      ∀ k, k < i → letterOrNum (l.getD k ' ') = false := by
  induction l generalizing i with
  | nil => simp [firstAlnumIdx] at h
  | cons c cs ih =>
    by_cases hc : letterOrNum c = true
    · simp [firstAlnumIdx, hc] at h
      subst h
      exact ⟨by simp, by simpa using hc, by omega⟩
    · simp [firstAlnumIdx, hc] at h
      obtain ⟨j, hj, rfl⟩ := h
      obtain ⟨hlt, hal, hmin⟩ := ih j hj
      refine ⟨by simpa using hlt, by simpa using hal, ?_⟩
      intro k hk
      match k with
      | 0 => simpa using eq_false_of_ne_true hc
      | k + 1 =>
        have := hmin k (by omega)
        simpa using this

/-- When the text holds some letter-or-number character, the forward
trim loop finds one. -/
theorem firstAlnumIdx_isSome (l : List Char) (h : l.any letterOrNum = true) :
    (firstAlnumIdx l).isSome = true := by
  induction l with
  | nil => simp at h
  | cons c cs ih =>
    by_cases hc : letterOrNum c = true
    · simp [firstAlnumIdx, hc]
    · simp [hc] at h
      have := ih (by simpa using h)
      simp [firstAlnumIdx, hc, Option.isSome_map]
      simpa using this

/-- When no character is a letter-or-number, the forward trim loop
finds nothing. -/
theorem firstAlnumIdx_none (l : List Char) (h : ∀ c ∈ l, letterOrNum c = false) :
    firstAlnumIdx l = none := by
  induction l with
  | nil => rfl
  | cons c cs ih =>
    have hc : letterOrNum c = false := h c (by simp)
    simp [firstAlnumIdx, hc, ih fun d hd => h d (by simp [hd])]

/-- getD through reverse: reading the reversed list at an in-range
index reads the original from the end. -/
theorem getD_reverse_chars (l : List Char) (i : Nat) (h : i < l.length) :
    l.reverse.getD i ' ' = l.getD (l.length - 1 - i) ' ' := by
  have h' : i < l.reverse.length := by simpa using h
  rw [List.getD_eq_getElem?_getD, List.getD_eq_getElem?_getD,
    List.getElem?_eq_getElem h', List.getElem?_eq_getElem (by omega),
    List.getElem_reverse]

/-- Claim C5 counterexample: the claim asserts that trim on a selection with
no letter-or-number character returns null; the code instead leaves
start and stop at their defaults (0 and the text length), returning the
selection window unchanged, here on the pure-punctuation selection
"  ...  ". -/
theorem trimRange_pure_punctuation_cex :
    trimRange true "  ...  ".toList = some (0, 7) ∧
    (∀ c ∈ "  ...  ".toList, letterOrNum c = false) := by
  exact ⟨by decide, by decide⟩

/-- Claim C5 amended: when the selection text holds at least one
letter-or-number character, the trimmed window is a sub-span of the
input (stop at most the length) whose text starts and ends on a
letter-or-number character, and on "  hello,  " it is exactly "hello";
when it holds none, trim returns the selection unchanged (the full
(0, length) window), not null. -/
theorem trimRange_guarantees (text : List Char) (h : text.any letterOrNum = true) :
    (∃ s e, trimRange true text = some (s, e) ∧ s ≤ e ∧ e ≤ text.length ∧
      letterOrNum (text.getD s ' ') = true ∧ letterOrNum (text.getD (e - 1) ' ') = true ∧
      (trimmedText text).head? = some (text.getD s ' ') ∧
      (trimmedText text).getLast? = some (text.getD (e - 1) ' ')) ∧
    trimmedText "  hello,  ".toList = "hello".toList ∧
    (∀ t : List Char, (∀ c ∈ t, letterOrNum c = false) →
      trimRange true t = some (0, t.length)) := by
  refine ⟨?_, by decide, ?_⟩
  · obtain ⟨s, hsome⟩ := Option.isSome_iff_exists.mp (firstAlnumIdx_isSome text h)
    obtain ⟨hslt, hsal, hsmin⟩ := firstAlnumIdx_spec text s hsome
    have hrev : text.reverse.any letterOrNum = true := by
      rw [List.any_eq_true] at h ⊢
      obtain ⟨c, hc, hcal⟩ := h
      exact ⟨c, List.mem_reverse.mpr hc, hcal⟩
    obtain ⟨i, hisome⟩ := Option.isSome_iff_exists.mp (firstAlnumIdx_isSome text.reverse hrev)
    obtain ⟨hilt, hial, _⟩ := firstAlnumIdx_spec text.reverse i hisome
    have hilt' : i < text.length := by simpa using hilt
    set j := text.length - 1 - i with hj
    have hjal : letterOrNum (text.getD j ' ') = true := by
      rw [← getD_reverse_chars text i hilt']
      exact hial
    have hsj : s ≤ j := by
      by_contra hlt
      have := hsmin j (by omega)
      rw [this] at hjal
      exact absurd hjal (by simp)
    have hlast : lastAlnumIdx text = some j := by
      simp [lastAlnumIdx, hisome]
    have htrim : trimRange true text = some (s, j + 1) := by
      simp [trimRange, hsome, hlast]
    have hjlen : j + 1 ≤ text.length := by omega
    have htm : trimmedText text = (text.drop s).take (j + 1 - s) := by
      simp [trimmedText, htrim]
    have hlen : (trimmedText text).length = j + 1 - s := by
      rw [htm]
      simp
      omega
    refine ⟨s, j + 1, htrim, by omega, hjlen, hsal, by simpa using hjal, ?_, ?_⟩
    · rw [List.head?_eq_getElem?, htm]
      rw [List.getElem?_take_of_lt (by omega), List.getElem?_drop]
      simp [List.getD_eq_getElem?_getD, List.getElem?_eq_getElem hslt]
    · rw [List.getLast?_eq_getElem?, hlen, htm]
      have h1 : j + 1 - s - 1 < j + 1 - s := by omega
      rw [List.getElem?_take_of_lt h1, List.getElem?_drop]
      have h2 : s + (j + 1 - s - 1) = j := by omega
      rw [h2]
      simp [List.getD_eq_getElem?_getD, List.getElem?_eq_getElem (by omega : j < text.length)]
  · intro t ht
    have h1 := firstAlnumIdx_none t ht
    have h2 : firstAlnumIdx t.reverse = none :=
      firstAlnumIdx_none t.reverse fun c hc => ht c (List.mem_reverse.mp hc)
    simp [trimRange, h1, lastAlnumIdx, h2]

/-- Claim C5 witness: the amended guarantees instantiated on the selection
"  hello,  ", whose trimmed window is exactly "hello". -/
theorem trimRange_guarantees_witness :
    trimmedText "  hello,  ".toList = "hello".toList :=
  (trimRange_guarantees "  hello,  ".toList (by decide)).2.1

/-- Claim C4 counterexample: on the block text "xaax aa" holding a marker
over (0, 2) and another, non-overlapping marker over (5, 7) that
already carries covered text "aa" with the same translation, annotating
the span (1, 3) with text "aa" (overlapping the first marker, and not
the idempotent case) leaves two markers carrying the new text and
translation, not exactly one. -/
theorem highlightSelection_exactly_one_cex :
    overlapsSpan 1 3 ⟨0, 2, .str "t1"⟩ = true ∧
    noopCheck ⟨"xaax aa", [⟨0, 2, .str "t1"⟩, ⟨5, 7, .str "t0"⟩]⟩ 1 3 "aa" = false ∧
    countMarksWith
      (highlightSelection ⟨"xaax aa", [⟨0, 2, .str "t1"⟩, ⟨5, 7, .str "t0"⟩]⟩ 1 3 "aa"
        (.str "t0"))
      "aa" (.str "t0") = 2 := by
  decide

/-- Claim C4 amended: outside the idempotent case, annotating a span unwraps
exactly the markers overlapping it (by the inclusive boundary
comparison) and draws one new marker carrying the span and its
translation; provided no surviving, non-overlapping marker already
carries the same covered text and translation, exactly one such marker
is present afterwards.  Annotating a span whose container already sits
inside a marker with identical covered text is a no-op. -/
theorem highlightSelection_overlap_resolution (b : Block) (s e : Nat) (text : String)
    (tr : Translation)
    (hno : noopCheck b s e text = false)
    (hcov : coveredText b.blockText ⟨s, e, tr⟩ = text)
    (hdup : ∀ m ∈ b.marks, overlapsSpan s e m = false →
      ¬(coveredText b.blockText m = text ∧ m.translation = tr)) :
    (highlightSelection b s e text tr).marks
        = b.marks.filter (fun m => !overlapsSpan s e m) ++ [⟨s, e, tr⟩] ∧
    countMarksWith (highlightSelection b s e text tr) text tr = 1 ∧
    (∀ b2 s2 e2 t2 tr2, noopCheck b2 s2 e2 t2 = true →
      highlightSelection b2 s2 e2 t2 tr2 = b2) := by
  have hsel : highlightSelection b s e text tr
      = { b with marks := b.marks.filter (fun m => !overlapsSpan s e m) ++ [⟨s, e, tr⟩] } := by
    simp [highlightSelection, hno]
  refine ⟨by rw [hsel], ?_, ?_⟩
  · rw [hsel]
    unfold countMarksWith
    rw [List.countP_append]
    have h0 : (b.marks.filter (fun m => !overlapsSpan s e m)).countP
        (fun m => decide (coveredText b.blockText m = text) && decide (m.translation = tr)) = 0 := by
      rw [List.countP_eq_zero]
      intro m hm
      obtain ⟨hmem, hkeep⟩ := List.mem_filter.mp hm
      have hov : overlapsSpan s e m = false := by
        simpa using hkeep
      have := hdup m hmem hov
      simp only [Bool.and_eq_true, decide_eq_true_eq]
      exact fun hcontra => this hcontra
    rw [h0]
    simp [hcov]
  · intro b2 s2 e2 t2 tr2 h2
    simp [highlightSelection, h2]

/-- Claim C4 witness: on a block "xx aa yy" holding a single marker over
(3, 5), annotating the overlapping span (2, 5) with its covered text
" aa" yields exactly one marker carrying that text and translation. -/
theorem highlightSelection_overlap_resolution_witness :
    countMarksWith
      (highlightSelection ⟨"xx aa yy", [⟨3, 5, .str "old"⟩]⟩ 2 5 " aa" (.str "new"))
      " aa" (.str "new") = 1 :=
  (highlightSelection_overlap_resolution ⟨"xx aa yy", [⟨3, 5, .str "old"⟩]⟩ 2 5 " aa"
    (.str "new") (by decide) (by decide) (by decide)).2.1

/-- find? skips a prefix on which the predicate is everywhere false. -/
theorem find?_append_of_forall_false {α : Type} (p : α → Bool) (l1 l2 : List α)
    (h : ∀ x ∈ l1, p x = false) : (l1 ++ l2).find? p = l2.find? p := by
  induction l1 with
  | nil => simp
  | cons a l ih =>
    have ha := h a (List.mem_cons_self a l)
    simp only [List.cons_append, List.find?_cons, ha]
    exact ih fun x hx => h x (List.mem_cons_of_mem a hx)

/-- Claim C6: saving a record for text "ephemeral" with context "The
ephemeral nature of blossoms" into a store holding no record for that
text, then looking it up with the same text and the same context,
returns the stored (truthy) payload; looking it up with the same text
but any different context returns null - the cache requires exact
literal-text equality and exact context equality. -/
theorem findCached_round_trip (store : List Record) (tr : Translation) (ts : Nat)
    (htr : truthy tr = true)
    (hfresh : ∀ r ∈ store, r.text ≠ "ephemeral") :
    getCachedTranslation
        (saveHighlight store "ephemeral" tr "The ephemeral nature of blossoms" ts)
        "ephemeral" "The ephemeral nature of blossoms" = some tr ∧
    (∀ c : String, c ≠ "The ephemeral nature of blossoms" →
      getCachedTranslation
        (saveHighlight store "ephemeral" tr "The ephemeral nature of blossoms" ts)
        "ephemeral" c = none) := by
  constructor
  · unfold getCachedTranslation saveHighlight
    rw [find?_append_of_forall_false]
    · simp [List.find?, htr]
    · intro r hr
      simp [decide_eq_false (hfresh r hr)]
  · intro c hc
    unfold getCachedTranslation saveHighlight
    rw [find?_append_of_forall_false]
    · have hcf : (decide (("The ephemeral nature of blossoms" : String) = c)) = false :=
        decide_eq_false fun heq => hc heq.symm
      simp [List.find?, hcf]
    · intro r hr
      simp [decide_eq_false (hfresh r hr)]

/-- Claim C6 witness: the round trip instantiated from the empty store with
the payload "vergänglich" and the different context "other". -/
theorem findCached_round_trip_witness :
    getCachedTranslation
        (saveHighlight [] "ephemeral" (.str "vergänglich")
          "The ephemeral nature of blossoms" 0)
        "ephemeral" "The ephemeral nature of blossoms" = some (.str "vergänglich") ∧
    getCachedTranslation
        (saveHighlight [] "ephemeral" (.str "vergänglich")
          "The ephemeral nature of blossoms" 0)
        "ephemeral" "other" = none :=
  ⟨(findCached_round_trip [] (.str "vergänglich") 0 (by decide) (by simp)).1,
   (findCached_round_trip [] (.str "vergänglich") 0 (by decide) (by simp)).2
     "other" (by decide)⟩

/-- Records in the output of the first-seen filter never carry a key
that was already seen before the walk started. -/
theorem dedupByKeyGo_not_mem (l : List Record) (seen : List String) (q : String)
    (hq : q ∈ seen) : ∀ h ∈ dedupByKeyGo seen l, recordKey h ≠ q := by
  induction l generalizing seen with
  | nil => simp [dedupByKeyGo]
  | cons r t ih =>
    simp only [dedupByKeyGo]
    by_cases hm : recordKey r ∈ seen
    · rw [if_pos hm]
      exact ih seen hq
    · rw [if_neg hm]
      intro h hh
      rcases List.mem_cons.mp hh with rfl | hmem
      · exact fun heq => hm (heq ▸ hq)
      · exact ih (recordKey r :: seen) (List.mem_cons_of_mem _ hq) h hmem

/-- The first-seen filter leaves at most one record per key. -/
theorem dedupByKeyGo_countP_le_one (l : List Record) (seen : List String) (q : String) :
    (dedupByKeyGo seen l).countP (fun h => decide (recordKey h = q)) ≤ 1 := by
  induction l generalizing seen with
  | nil => simp [dedupByKeyGo]
  | cons r t ih =>
    simp only [dedupByKeyGo]
    by_cases hm : recordKey r ∈ seen
    · rw [if_pos hm]
      exact ih seen
    · rw [if_neg hm]
      rw [List.countP_cons]
      by_cases hrq : recordKey r = q
      · have h0 : (dedupByKeyGo (recordKey r :: seen) t).countP
            (fun h => decide (recordKey h = q)) = 0 := by
          rw [List.countP_eq_zero]
          intro a ha
          have := dedupByKeyGo_not_mem t (recordKey r :: seen) q
            (hrq ▸ List.mem_cons_self _ _) a ha
          simpa using this
        rw [h0]
        simp [hrq]
      · simp only [hrq, decide_False]
        simpa using ih (recordKey r :: seen)

/-- Claim C7: removal by key deletes every record whose key (lemma when
present, else literal text) equals the requested key; the
canonical-form-keyed listing keeps at most one record per key; and
concretely, records for "laufen" and "läuft" sharing canonical form
"laufen" are removed together by that key and collapse to the single
most recent entry in the listing. -/
theorem removal_and_dedup_by_key (store : List Record) (key : String) :
    (∀ h ∈ removeFromStorage store key, recordKey h ≠ key) ∧
    (∀ h ∈ store, recordKey h = key → h ∉ removeFromStorage store key) ∧
    (∀ q : String, (dedupByKey store).countP (fun h => decide (recordKey h = q)) ≤ 1) ∧
    removeFromStorage [⟨"laufen", some "laufen", .str "to run", "ctx", 2⟩,
      ⟨"läuft", some "laufen", .str "to run", "ctx", 1⟩] "laufen" = [] ∧
    dedupByKey [⟨"laufen", some "laufen", .str "to run", "ctx", 2⟩,
      ⟨"läuft", some "laufen", .str "to run", "ctx", 1⟩]
      = [⟨"laufen", some "laufen", .str "to run", "ctx", 2⟩] := by
  refine ⟨?_, ?_, fun q => dedupByKeyGo_countP_le_one store [] q, by decide, by decide⟩
  · intro h hh
    have := (List.mem_filter.mp hh).2
    simpa using this
  · intro h _ hkey hmem
    have := (List.mem_filter.mp hmem).2
    simp [hkey] at this

/-- Claim C7 witness: the record for the inflected form "läuft" is removed by
its canonical key "laufen". -/
theorem removal_and_dedup_by_key_witness :
    (⟨"läuft", some "laufen", Translation.str "to run", "ctx", 1⟩ : Record) ∉
      removeFromStorage [⟨"laufen", some "laufen", .str "to run", "ctx", 2⟩,
        ⟨"läuft", some "laufen", .str "to run", "ctx", 1⟩] "laufen" :=
  (removal_and_dedup_by_key
      [⟨"laufen", some "laufen", .str "to run", "ctx", 2⟩,
       ⟨"läuft", some "laufen", .str "to run", "ctx", 1⟩] "laufen").2.1
    ⟨"läuft", some "laufen", .str "to run", "ctx", 1⟩ (by simp) (by decide)

/-- Claim C9: getCachedTranslation returns null when no record matches, and
also when the first matching record stores a falsy translation payload
(such as the empty string), because the found payload is coalesced
through || null - a hit on an empty translation is indistinguishable
from a miss. -/
theorem getCachedTranslation_falsy (store : List Record) (text context : String)
    (r : Record)
    (hfind : store.find? (fun h => h.text = text && h.context = context) = some r)
    (hfalsy : truthy r.translation = false) :
    getCachedTranslation store text context = none ∧
    (∀ (s2 : List Record) (t2 c2 : String),
      s2.find? (fun h => h.text = t2 && h.context = c2) = none →
      getCachedTranslation s2 t2 c2 = none) := by
  constructor
  · unfold getCachedTranslation
    rw [hfind]
    simp [hfalsy]
  · intro s2 t2 c2 hnone
    unfold getCachedTranslation
    rw [hnone]

/-- Claim C9 witness: a stored record for text "a" in context "c" whose
translation is the empty string reads back as null. -/
theorem getCachedTranslation_falsy_witness :
    getCachedTranslation [⟨"a", none, .str "", "c", 0⟩] "a" "c" = none :=
  (getCachedTranslation_falsy [⟨"a", none, .str "", "c", 0⟩] "a" "c"
    ⟨"a", none, .str "", "c", 0⟩ (by decide) (by decide)).1

/-- Claim C8 counterexample: a text node lying inside a drawn marker (the
marker element contains it) is not recognized by isOwnElement when no
button or tooltip is shown, because the classList test only inspects
the node itself. -/
theorem isOwnElement_marker_descendant_cex :
    containsNode (.elem "MARK" ["contxtly-highlight"] [.text "hi"]) (.text "hi") = true ∧
    isOwnElement none none (.text "hi") = false := by
  decide

/-- Claim C8 amended: isOwnElement is true for every node inside the shown
button, every node inside the shown tooltip, and for any node itself
carrying the contxtly-highlight class (in particular every marker
element); but with no button and no tooltip shown it is false for any
node not carrying the class, including descendants of a marker. -/
theorem isOwnElement_own_controls (button tooltip : Option DomNode) (el : DomNode) :
    (∀ b, button = some b → containsNode b el = true →
      isOwnElement button tooltip el = true) ∧
    (∀ t, tooltip = some t → containsNode t el = true →
      isOwnElement button tooltip el = true) ∧
    (classListContains el "contxtly-highlight" = true →
      isOwnElement button tooltip el = true) ∧
    (button = none → tooltip = none → classListContains el "contxtly-highlight" = false →
      isOwnElement button tooltip el = false) := by
  refine ⟨?_, ?_, ?_, ?_⟩
  · rintro b rfl hc
    simp [isOwnElement, hc]
  · rintro t rfl hc
    simp [isOwnElement, hc]
  · intro hc
    cases button <;> cases tooltip <;> simp [isOwnElement, hc]
  · rintro rfl rfl hc
    simp [isOwnElement, hc]

/-- Claim C8 witness: a text node inside the shown button is recognized; a
marker element carrying the highlight class is recognized. -/
theorem isOwnElement_own_controls_witness :
    isOwnElement (some (.elem "BUTTON" ["contxtly-btn"] [.text "Translate"])) none
      (.text "Translate") = true ∧
    isOwnElement none none (.elem "MARK" ["contxtly-highlight"] []) = true :=
  ⟨(isOwnElement_own_controls (some (.elem "BUTTON" ["contxtly-btn"] [.text "Translate"]))
      none (.text "Translate")).1 _ rfl (by decide),
   (isOwnElement_own_controls none none (.elem "MARK" ["contxtly-highlight"] [])).2.2.1
     (by decide)⟩

end Contxtly

